import Mathlib

/-!
# Verification of the MPT digit-stream decoder (tpidump.c)

Shallow embedding of the MPT file reader from `src/tpidump.c`:
`mpt_reader_open`, `mpt_reader_fill`, `mpt_reader_get_digit`,
`mpt_reader_getc` and `mpt_reader_close`.

Modelling conventions:
* Machine integers (`uint64_t`, `int64_t`, `int`) are modelled as `Nat`,
  except where a sign test matters (`expn`, the computed limb offset),
  where `Int` is used.  All quantities handled by the reader stay far
  below 2^63 on the paths covered here, so no wrap-around is modelled.
* The file is a value `MPTFile`: the parsed on-disk header plus the list
  of 64-bit limbs in the body.  `headerPresent = false` models a file
  whose header read (`fopen`/`fread`) fails.
* `fread` of the limb body is modelled by `readLimbs`: it succeeds
  exactly when the requested limb range lies inside the body, mirroring
  the short-read test `fread(...) != len * sizeof(uint64_t)`.
* The C functions return `NULL` / `-1` on failure.  The embedding tags
  each failure site with the error name of the spec taxonomy (sec. 7)
  for the check that failed there (`OpenError`), and distinguishes the
  `abort()` call on a short read (`abortProcess`: the process
  terminates, nothing is returned to the caller) from the normal
  end-of-data return `-1` (`eod`).
* `malloc` failure is not modelled (allocation is assumed to succeed).
* `startPosition` is the 0-based digit index of the spec (sec. 4.2) and is
  modelled as `Nat`.
-/

def BASE10_EXP : Nat := 19

def MPT_TYPE_MPZ : Nat := 1

def MPT_TYPE_MPF : Nat := 2

def MPT_DISK_HEADER_SIZE : Nat := 4096

def MPT_MAX_BUF_LEN : Nat := 1024 * 1024

/-- The 8 magic bytes "MPT\1FILE". -/
def mpt_magic : List Nat := [77, 80, 84, 1, 70, 73, 76, 69]

/-- Header record `mpt_disk_header_t`: the fixed on-disk header. -/
structure mpt_disk_header_t where
  magic : List Nat
  len : Nat
  allocated_len : Nat
  type : Nat
  negative : Nat
  hbase : Nat
  expn : Int
  deriving DecidableEq

/-- A file: header bytes (present or short) and the limb body that
starts at byte offset `MPT_DISK_HEADER_SIZE`. -/
structure MPTFile where
  headerPresent : Bool
  h : mpt_disk_header_t
  limbs : List Nat
  deriving DecidableEq

/-- Decoder state `MPTReader`.  The `FILE *` handle is replaced by
passing the `MPTFile` explicitly to `mpt_reader_fill` and
`mpt_reader_get_digit`; the header copy `s->h` is only used inside
`mpt_reader_open` and is not stored. -/
structure MPTReader where
  base : Nat
  base2_exp : Nat
  base2_mask : Nat
  buf : List Nat
  buf_pos : Nat
  buf_len : Nat
  pos : Nat
  start_digit : Nat
  cur_digit : Nat
  cur_limb2 : Nat
  cur_limb10 : List Nat
  deriving DecidableEq

/-- Failure causes of `mpt_reader_open` (which in C all return `NULL`),
tagged with the spec's error taxonomy name for the failing check. -/
inductive OpenError where
  | ioError
  | formatError
  | unsupportedBase
  | positionOutOfRange
  deriving DecidableEq

/-- The loop `base2_exp = 1; while ((1 << base2_exp) != base) base2_exp++;`
with enough fuel for every power of two reachable here. -/
def find_base2_exp_go (base : Nat) : Nat → Nat → Nat
  | 0, e => e
  | fuel + 1, e => if 2 ^ e = base then e else find_base2_exp_go base fuel (e + 1)

def find_base2_exp (base : Nat) : Nat := find_base2_exp_go base 64 1

/-- Value of `digits_per_limb` as computed in `mpt_reader_open`:
`BASE10_EXP` for base 10, else 64. -/
def digits_per_limb (base : Nat) : Nat := if base = 10 then BASE10_EXP else 64

/-- The (possibly scaled) start position: `start_pos *= base2_exp` for
power-of-two bases, untouched for base 10. -/
def scaled_start (base start_pos : Nat) : Nat :=
  if base = 10 then start_pos else start_pos * find_base2_exp base

/-- The limb offset `s->pos = s->h.len - s->h.expn - (start_pos / digits_per_limb)`
computed by `mpt_reader_open` (line 135). -/
def limb_offset (h : mpt_disk_header_t) (base start_pos : Nat) : Int :=
  (h.len : Int) - h.expn - ((scaled_start base start_pos / digits_per_limb base : Nat) : Int)

/-- Open operation `mpt_reader_open` (lines 97-143). -/
def mpt_reader_open (f : MPTFile) (base start_pos : Nat) :
    Except OpenError MPTReader :=
  if ¬(base = 10 ∨ base = 2 ∨ base = 16) then Except.error OpenError.unsupportedBase
  else if ¬f.headerPresent then Except.error OpenError.ioError
  else if f.h.magic ≠ mpt_magic then Except.error OpenError.formatError
  else if f.h.type ≠ MPT_TYPE_MPF then Except.error OpenError.formatError
  else if f.h.expn < 0 then Except.error OpenError.formatError
  else if limb_offset f.h base start_pos ≤ 0 then Except.error OpenError.positionOutOfRange
  else Except.ok
    { base := base
      base2_exp := if base = 10 then 0 else find_base2_exp base
      base2_mask := if base = 10 then 0 else 2 ^ find_base2_exp base - 1
      buf := []
      buf_pos := 0
      buf_len := 0
      pos := (limb_offset f.h base start_pos).toNat
      start_digit := scaled_start base start_pos % digits_per_limb base
      cur_digit := 0
      cur_limb2 := 0
      cur_limb10 := List.replicate BASE10_EXP 0 }

/-- The `fread` of `cnt` limbs starting at limb index `off` of the body;
`none` models a short read (file body smaller than the requested range). -/
def readLimbs (f : MPTFile) (off cnt : Nat) : Option (List Nat) :=
  if off + cnt ≤ f.limbs.length then some ((f.limbs.drop off).take cnt) else none

/-- Outcome of an internal step: a new state, end-of-data (`-1`), or
`abort()` (process termination, control never returns to the caller). -/
inductive MPTStep where
  | next (s : MPTReader)
  | eod
  | abortProcess
  deriving DecidableEq

/-- Refill operation `mpt_reader_fill` (lines 145-159). -/
def mpt_reader_fill (f : MPTFile) (s : MPTReader) : MPTStep :=
  let len := min s.pos MPT_MAX_BUF_LEN
  if len = 0 then MPTStep.eod
  else
    let pos' := s.pos - len
    match readLimbs f pos' len with
    | none => MPTStep.abortProcess
    | some data =>
        MPTStep.next { s with pos := pos', buf := data, buf_len := len, buf_pos := len }

/-- The base-10 digit extraction loop (lines 174-177): iteration `i`
stores `a % 10` and replaces `a` by `a / 10`. -/
def limb10_digits_go : Nat → Nat → List Nat
  | 0, _ => []
  | n + 1, a => (a % 10) :: limb10_digits_go n (a / 10)

/-- Contents of `cur_limb10` after decomposing limb value `a` (index 0 = least
significant decimal digit). -/
def limb10_digits (a : Nat) : List Nat := limb10_digits_go BASE10_EXP a

/-- The `if (s->cur_digit == 0) { ... }` block of the base-10 branch of
`mpt_reader_get_digit` (lines 164-180): refill if the buffer is
exhausted, consume the next limb, decompose it. -/
def mpt_load10 (f : MPTFile) (s : MPTReader) : MPTStep :=
  if s.cur_digit = 0 then
    match (if s.buf_pos = 0 then mpt_reader_fill f s else MPTStep.next s) with
    | MPTStep.eod => MPTStep.eod
    | MPTStep.abortProcess => MPTStep.abortProcess
    | MPTStep.next s1 =>
        let bp := s1.buf_pos - 1
        let a := s1.buf.getD bp 0
        MPTStep.next { s1 with
          buf_pos := bp
          cur_limb10 := limb10_digits a
          cur_digit := BASE10_EXP - s1.start_digit
          start_digit := 0 }
  else MPTStep.next s

/-- The `if (s->cur_digit == 0) { ... }` block of the power-of-two branch
of `mpt_reader_get_digit` (lines 184-193). -/
def mpt_load2 (f : MPTFile) (s : MPTReader) : MPTStep :=
  if s.cur_digit = 0 then
    match (if s.buf_pos = 0 then mpt_reader_fill f s else MPTStep.next s) with
    | MPTStep.eod => MPTStep.eod
    | MPTStep.abortProcess => MPTStep.abortProcess
    | MPTStep.next s1 =>
        let bp := s1.buf_pos - 1
        let a := s1.buf.getD bp 0
        MPTStep.next { s1 with
          buf_pos := bp
          cur_limb2 := a
          cur_digit := 64 - s1.start_digit
          start_digit := 0 }
  else MPTStep.next s

/-- Result of `mpt_reader_get_digit` / `mpt_reader_getc`: a digit value
(resp. character code), end-of-data (`-1`), or `abort()`. -/
inductive DigitResult where
  | digit (d : Nat)
  | eod
  | abortProcess
  deriving DecidableEq

/-- Next-digit operation `mpt_reader_get_digit` (lines 161-197).  The returned state is the
updated `*s`; on end-of-data the state is unchanged (the C code mutates
nothing before `return -1`). -/
def mpt_reader_get_digit (f : MPTFile) (s : MPTReader) : DigitResult × MPTReader :=
  if s.base = 10 then
    match mpt_load10 f s with
    | MPTStep.eod => (DigitResult.eod, s)
    | MPTStep.abortProcess => (DigitResult.abortProcess, s)
    | MPTStep.next s1 =>
        let c := s1.cur_digit - 1
        (DigitResult.digit (s1.cur_limb10.getD c 0), { s1 with cur_digit := c })
  else
    match mpt_load2 f s with
    | MPTStep.eod => (DigitResult.eod, s)
    | MPTStep.abortProcess => (DigitResult.abortProcess, s)
    | MPTStep.next s1 =>
        let c := s1.cur_digit - s1.base2_exp
        (DigitResult.digit ((s1.cur_limb2 >>> c) &&& s1.base2_mask),
         { s1 with cur_digit := c })

/-- Character operation `mpt_reader_getc` (lines 199-210): map a digit value to its
character code (`'0' = 48`, `'A' - 10 = 55`); negative results (here:
end-of-data) pass through. -/
def mpt_reader_getc (f : MPTFile) (s : MPTReader) : DigitResult × MPTReader :=
  match mpt_reader_get_digit f s with
  | (DigitResult.digit c, s') =>
      (DigitResult.digit (if c < 10 then c + 48 else c + 55), s')
  | (r, s') => (r, s')

/-- Pull `k` successive results from `mpt_reader_get_digit`. -/
def mpt_pull (f : MPTFile) : MPTReader → Nat → List DigitResult
  | _, 0 => []
  | s, k + 1 =>
      let r := mpt_reader_get_digit f s
      r.1 :: mpt_pull f r.2 k

/-- Pull `k` successive results from `mpt_reader_getc`. -/
def mpt_pullc (f : MPTFile) : MPTReader → Nat → List DigitResult
  | _, 0 => []
  | s, k + 1 =>
      let r := mpt_reader_getc f s
      r.1 :: mpt_pullc f r.2 k

/-- The state after one `mpt_reader_get_digit` call. -/
def mpt_step_state (f : MPTFile) (s : MPTReader) : MPTReader :=
  (mpt_reader_get_digit f s).2

/-- The state after `n` successive `mpt_reader_get_digit` calls. -/
def mpt_iter (f : MPTFile) : MPTReader → Nat → MPTReader
  | s, 0 => s
  | s, n + 1 => mpt_iter f (mpt_step_state f s) n

/-!
## Model of `mpt_reader_close`

`mpt_reader_close` (lines 89-95) releases the `FILE *` handle, the limb
buffer and the `MPTReader` struct itself.  Digit values play no role, so
the model only tracks the allocation state of these three resources.
Following the C standard: `free(NULL)` and skipping a `NULL` handle are
no-ops; `free` of an already-freed pointer, `fclose` of an already-closed
handle and any dereference of a freed struct are undefined behavior,
modelled as `none`.
-/

/-- Allocation state of one resource. -/
inductive AllocState where
  | isNull
  | live
  | freed
  deriving DecidableEq

/-- The resources owned by one reader: the `MPTReader` struct itself
(`self`), the `FILE *` handle (`file`) and the limb buffer (`buf`).
After a failed `fopen`, `file` is `isNull`; before the buffer `malloc`,
`buf` is `isNull` (the struct is zeroed by `memset`). -/
structure ReaderAlloc where
  self : AllocState
  file : AllocState
  buf : AllocState
  deriving DecidableEq

/-- Close operation `mpt_reader_close` (lines 89-95):
`if (s->f) fclose(s->f); free(s->buf); free(s);`.
Reading `s->f` requires the struct to be live; `fclose` requires a
not-yet-closed handle; `free(s->buf)` and `free(s)` require their
arguments to be `NULL` or live.  `none` = undefined behavior. -/
def mpt_reader_close (r : ReaderAlloc) : Option ReaderAlloc :=
  if r.self ≠ AllocState.live then none
  else if r.file = AllocState.freed then none
  else if r.buf = AllocState.freed then none
  else some
    { self := AllocState.freed
      file := if r.file = AllocState.live then AllocState.freed else AllocState.isNull
      buf := if r.buf = AllocState.live then AllocState.freed else AllocState.isNull }

/-!
## Concrete inputs used by witnesses and counterexamples
-/

/-- The limb value of the concrete scenario of spec sec. 8: the first 19
decimal digits of pi scaled to an integer. -/
def V5 : Nat := 3141592653589793238

/-- A valid one-limb file: `storedLength = 1`, `exponent = 0`, body `[V5]`. -/
def file5 : MPTFile :=
  { headerPresent := true
    h := { magic := mpt_magic, len := 1, allocated_len := 1, type := 2,
           negative := 0, hbase := 0, expn := 0 }
    limbs := [V5] }

/-- A truncated file: the header claims `storedLength = 1` but the body
is empty, so the first refill suffers a short read. -/
def file6 : MPTFile :=
  { headerPresent := true
    h := { magic := mpt_magic, len := 1, allocated_len := 1, type := 2,
           negative := 0, hbase := 0, expn := 0 }
    limbs := [] }

/-- The reader state produced by `mpt_reader_open file5 10 0` (and by
`mpt_reader_open file6 10 0`: `open` never reads the body). -/
def rdr10_fresh : MPTReader :=
  { base := 10, base2_exp := 0, base2_mask := 0, buf := [], buf_pos := 0,
    buf_len := 0, pos := 1, start_digit := 0, cur_digit := 0, cur_limb2 := 0,
    cur_limb10 := List.replicate BASE10_EXP 0 }

/-- The reader state produced by `mpt_reader_open file5 10 2`. -/
def rdr10_p2 : MPTReader :=
  { rdr10_fresh with start_digit := 2 }

/-- The state of `rdr10_fresh` after one `mpt_reader_get_digit` on `file5`. -/
def rdr10_after1 : MPTReader :=
  { base := 10, base2_exp := 0, base2_mask := 0, buf := [V5], buf_pos := 0,
    buf_len := 1, pos := 0, start_digit := 0, cur_digit := 18, cur_limb2 := 0,
    cur_limb10 := limb10_digits V5 }

/-- An exhausted reader state: empty buffer, no file data left. -/
def rdr10_done : MPTReader :=
  { rdr10_fresh with pos := 0 }

/-- The decimal value encoded by a digit list (index 0 = least
significant digit): used to state what the base-10 decomposition of a
limb reconstructs. -/
def digitListValue (ds : List Nat) : Nat :=
  ds.foldr (fun d acc => d + 10 * acc) 0

/-- The digit of the stored number at distance `t + 1` base-10 digit
positions above the bottom of the stored limb array: limb `t / 19`,
decimal place `t % 19`.  Derived denotation of the base-10 stream. -/
def bottom10 (f : MPTFile) (t : Nat) : Nat :=
  f.limbs.getD (t / 19) 0 / 10 ^ (t % 19) % 10

/-- The base-`2^e` digit of the stored number whose least significant
bit sits `t` bits above the bottom of the stored limb array: limb
`t / 64`, bit offset `t % 64`.  Derived denotation of the
power-of-two-base stream. -/
def bottom2 (f : MPTFile) (e t : Nat) : Nat :=
  (f.limbs.getD (t / 64) 0 >>> (t % 64)) &&& (2 ^ e - 1)

/-- Difference `storedLength − exponent` as a natural number: the number of limbs
below the integer-part boundary from which the stream reads. -/
def mptM (f : MPTFile) : Nat := f.h.len - f.h.expn.toNat

/-- The header checks of `mpt_reader_open` (lines 110-120): header
readable, magic matches, type is MPF, exponent non-negative. -/
def headerOk (f : MPTFile) : Prop :=
  f.headerPresent = true ∧ f.h.magic = mpt_magic ∧ f.h.type = MPT_TYPE_MPF ∧ 0 ≤ f.h.expn

instance (f : MPTFile) : Decidable (headerOk f) := by
  unfold headerOk
  infer_instance

instance {ε α : Type} [DecidableEq ε] [DecidableEq α] : DecidableEq (Except ε α) :=
  fun x y =>
    match x, y with
    | Except.error a, Except.error b =>
        if h : a = b then Decidable.isTrue (by rw [h])
        else Decidable.isFalse (fun hc => h (Except.error.inj hc))
    | Except.ok a, Except.ok b =>
        if h : a = b then Decidable.isTrue (by rw [h])
        else Decidable.isFalse (fun hc => h (Except.ok.inj hc))
    | Except.error _, Except.ok _ => Decidable.isFalse (fun hc => Except.noConfusion hc)
    | Except.ok _, Except.error _ => Decidable.isFalse (fun hc => Except.noConfusion hc)

/-- The reader state produced by a successful `mpt_reader_fill`. -/
def fillState (f : MPTFile) (s : MPTReader) : MPTReader :=
  { s with pos := s.pos - min s.pos MPT_MAX_BUF_LEN
           buf := (f.limbs.drop (s.pos - min s.pos MPT_MAX_BUF_LEN)).take
                    (min s.pos MPT_MAX_BUF_LEN)
           buf_len := min s.pos MPT_MAX_BUF_LEN
           buf_pos := min s.pos MPT_MAX_BUF_LEN }

/-- State facts preserved by every decoder step that bound the emitted
digit values for a stream of base `b`. -/
def DigitBound (b : Nat) (s : MPTReader) : Prop :=
  s.base = b ∧
  (b = 10 → ∀ x ∈ s.cur_limb10, x < 10) ∧
  (b ≠ 10 → s.base2_mask = b - 1 ∧ 0 < b)

/-- Invariant characterizing a reachable base-10 reader state whose
remaining digit supply is `R`. -/
structure Represents10 (f : MPTFile) (s : MPTReader) (R : Nat) : Prop where
  hbase : s.base = 10
  heq : R + s.start_digit = (s.pos + s.buf_pos) * 19 + s.cur_digit
  hsd : s.start_digit ≤ 18
  hcd : s.cur_digit ≤ 19
  hcur : s.cur_digit ≠ 0 → s.start_digit = 0 ∧
         s.cur_limb10 = limb10_digits (f.limbs.getD (s.pos + s.buf_pos) 0)
  hbp : s.buf_pos ≤ s.buf_len
  hbl : s.buf_len ≤ MPT_MAX_BUF_LEN
  hbuf : ∀ i, i < s.buf_len → s.buf.getD i 0 = f.limbs.getD (s.pos + i) 0
  hlen : s.pos + s.buf_len ≤ f.limbs.length

/-- Invariant characterizing a reachable power-of-two-base reader state
whose remaining supply is `R` bits (`e` bits per emitted digit). -/
structure Represents2 (f : MPTFile) (e : Nat) (s : MPTReader) (R : Nat) : Prop where
  hbase : s.base ≠ 10
  hexp : s.base2_exp = e
  hmask : s.base2_mask = 2 ^ e - 1
  he : 0 < e
  hdvd64 : e ∣ 64
  heq : R + s.start_digit = (s.pos + s.buf_pos) * 64 + s.cur_digit
  hsd : s.start_digit ≤ 63
  hsddvd : e ∣ s.start_digit
  hcd : s.cur_digit ≤ 64
  hcddvd : e ∣ s.cur_digit
  hcur : s.cur_digit ≠ 0 → s.start_digit = 0 ∧
         s.cur_limb2 = f.limbs.getD (s.pos + s.buf_pos) 0
  hbp : s.buf_pos ≤ s.buf_len
  hbl : s.buf_len ≤ MPT_MAX_BUF_LEN
  hbuf : ∀ i, i < s.buf_len → s.buf.getD i 0 = f.limbs.getD (s.pos + i) 0
  hlen : s.pos + s.buf_len ≤ f.limbs.length

theorem limb10_digits_go_getD (n : Nat) :
    ∀ (a i : Nat), i < n → (limb10_digits_go n a).getD i 0 = a / 10 ^ i % 10 := by
  induction n with
  | zero => intro a i h; omega
  | succ n ih =>
      intro a i h
      cases i with
      | zero => simp [limb10_digits_go]
      | succ i =>
          simp only [limb10_digits_go, List.getD_cons_succ]
          rw [ih (a / 10) i (by omega)]
          rw [Nat.div_div_eq_div_mul, pow_succ]
          ring_nf

theorem limb10_digits_go_lt (n : Nat) :
    ∀ (a : Nat), ∀ x ∈ limb10_digits_go n a, x < 10 := by
  induction n with
  | zero => intro a x hx; simp [limb10_digits_go] at hx
  | succ n ih =>
      intro a x hx
      simp only [limb10_digits_go, List.mem_cons] at hx
      rcases hx with h | h
      · omega
      · exact ih (a / 10) x h

theorem digitListValue_limb10_go (n : Nat) :
    ∀ a : Nat, digitListValue (limb10_digits_go n a) = a % 10 ^ n := by
  induction n with
  | zero => intro a; simp [limb10_digits_go, digitListValue, Nat.mod_one]
  | succ n ih =>
      intro a
      simp only [limb10_digits_go, digitListValue, List.foldr_cons]
      have h1 := ih (a / 10)
      simp only [digitListValue] at h1
      rw [h1, pow_succ, mul_comm (10 ^ n) 10, Nat.mod_mul]

theorem getD_lt_of_forall {l : List Nat} {b : Nat} (hb : 0 < b)
    (h : ∀ x ∈ l, x < b) (i : Nat) : l.getD i 0 < b := by
  rcases Nat.lt_or_ge i l.length with hi | hi
  · rw [List.getD_eq_getElem l 0 hi]
    exact h _ (List.getElem_mem hi)
  · rw [List.getD_eq_default l 0 hi]
    exact hb

theorem slice_getD (l : List Nat) (off cnt i : Nat) (h : i < cnt)
    (h2 : off + cnt ≤ l.length) :
    ((l.drop off).take cnt).getD i 0 = l.getD (off + i) 0 := by
  have hi : off + i < l.length := by omega
  have hi2 : i < ((l.drop off).take cnt).length := by
    simp [List.length_take, List.length_drop]
    omega
  rw [List.getD_eq_getElem _ 0 hi2, List.getD_eq_getElem _ 0 hi]
  rw [List.getElem_take, List.getElem_drop]

theorem fill_eod (f : MPTFile) (s : MPTReader) (hpos : s.pos = 0) :
    mpt_reader_fill f s = MPTStep.eod := by
  unfold mpt_reader_fill
  simp [hpos]

theorem fill_abort (f : MPTFile) (s : MPTReader) (hlen : f.limbs.length < s.pos) :
    mpt_reader_fill f s = MPTStep.abortProcess := by
  unfold mpt_reader_fill readLimbs
  have h1 : ¬ min s.pos MPT_MAX_BUF_LEN = 0 := by
    unfold MPT_MAX_BUF_LEN
    omega
  rw [if_neg h1]
  have h2 : ¬ (s.pos - min s.pos MPT_MAX_BUF_LEN + min s.pos MPT_MAX_BUF_LEN ≤ f.limbs.length) := by
    omega
  simp only [h2, if_false]

theorem fill_spec (f : MPTFile) (s : MPTReader) (hpos : 0 < s.pos)
    (hlen : s.pos ≤ f.limbs.length) :
    mpt_reader_fill f s = MPTStep.next
      { s with pos := s.pos - min s.pos MPT_MAX_BUF_LEN
               buf := (f.limbs.drop (s.pos - min s.pos MPT_MAX_BUF_LEN)).take
                        (min s.pos MPT_MAX_BUF_LEN)
               buf_len := min s.pos MPT_MAX_BUF_LEN
               buf_pos := min s.pos MPT_MAX_BUF_LEN } := by
  unfold mpt_reader_fill readLimbs
  have h1 : ¬ min s.pos MPT_MAX_BUF_LEN = 0 := by
    unfold MPT_MAX_BUF_LEN
    omega
  rw [if_neg h1]
  have h2 : s.pos - min s.pos MPT_MAX_BUF_LEN + min s.pos MPT_MAX_BUF_LEN ≤ f.limbs.length := by
    omega
  simp only [h2, if_true]

theorem get10_cur (f : MPTFile) (s : MPTReader) (c : Nat)
    (hb : s.base = 10) (hc : s.cur_digit = c + 1) :
    mpt_reader_get_digit f s =
      (DigitResult.digit (s.cur_limb10.getD c 0), { s with cur_digit := c }) := by
  unfold mpt_reader_get_digit mpt_load10
  simp [hb, hc]

theorem get10_fresh (f : MPTFile) (s : MPTReader) (b : Nat)
    (hb : s.base = 10) (hc : s.cur_digit = 0) (hbp : s.buf_pos = b + 1) :
    mpt_reader_get_digit f s =
      (DigitResult.digit
         ((limb10_digits (s.buf.getD b 0)).getD (BASE10_EXP - s.start_digit - 1) 0),
       { s with buf_pos := b
                cur_limb10 := limb10_digits (s.buf.getD b 0)
                cur_digit := BASE10_EXP - s.start_digit - 1
                start_digit := 0 }) := by
  unfold mpt_reader_get_digit mpt_load10
  simp [hb, hc, hbp]

theorem get_eod (f : MPTFile) (s : MPTReader)
    (hc : s.cur_digit = 0) (hbp : s.buf_pos = 0) (hpos : s.pos = 0) :
    mpt_reader_get_digit f s = (DigitResult.eod, s) := by
  unfold mpt_reader_get_digit mpt_load10 mpt_load2
  by_cases hb : s.base = 10 <;>
    simp [hb, hc, hbp, fill_eod f s hpos]

theorem get_abort (f : MPTFile) (s : MPTReader)
    (hc : s.cur_digit = 0) (hbp : s.buf_pos = 0) (hlen : f.limbs.length < s.pos) :
    mpt_reader_get_digit f s = (DigitResult.abortProcess, s) := by
  unfold mpt_reader_get_digit mpt_load10 mpt_load2
  by_cases hb : s.base = 10 <;>
    simp [hb, hc, hbp, fill_abort f s hlen]

theorem div19 (m r : Nat) (hr : r < 19) : (r + m * 19) / 19 = m := by
  rw [Nat.add_mul_div_right _ _ (by norm_num : (0:Nat) < 19),
      Nat.div_eq_of_lt hr, Nat.zero_add]

theorem mod19 (m r : Nat) (hr : r < 19) : (r + m * 19) % 19 = r := by
  rw [Nat.add_mul_mod_self_right, Nat.mod_eq_of_lt hr]

theorem bottom10_split (f : MPTFile) (m r : Nat) (hr : r < 19) :
    bottom10 f (r + m * 19) = f.limbs.getD m 0 / 10 ^ r % 10 := by
  unfold bottom10
  rw [div19 m r hr, mod19 m r hr]

theorem rep10_step_fresh (f : MPTFile) (s : MPTReader) (R b : Nat)
    (h : Represents10 f s R) (hc : s.cur_digit = 0) (hbp : s.buf_pos = b + 1) :
    ∃ R', R = R' + 1 ∧
      mpt_reader_get_digit f s =
        (DigitResult.digit (bottom10 f R'),
         { s with buf_pos := b
                  cur_limb10 := limb10_digits (s.buf.getD b 0)
                  cur_digit := BASE10_EXP - s.start_digit - 1
                  start_digit := 0 }) ∧
      Represents10 f
        { s with buf_pos := b
                 cur_limb10 := limb10_digits (s.buf.getD b 0)
                 cur_digit := BASE10_EXP - s.start_digit - 1
                 start_digit := 0 } R' := by
  obtain ⟨hbase, heq, hsd, hcd, hcur, hbp2, hbl, hbuf, hlen⟩ := h
  rw [hbp] at heq hbp2
  have hR : R = ((s.pos + b) * 19 + (18 - s.start_digit)) + 1 := by
    have : (s.pos + (b + 1)) * 19 = (s.pos + b) * 19 + 19 := by ring
    omega
  refine ⟨(s.pos + b) * 19 + (18 - s.start_digit), hR, ?_, ?_⟩
  · rw [get10_fresh f s b hbase hc hbp]
    have ha : s.buf.getD b 0 = f.limbs.getD (s.pos + b) 0 :=
      hbuf b (by omega)
    have hidx : BASE10_EXP - s.start_digit - 1 = 18 - s.start_digit := by
      unfold BASE10_EXP
      omega
    have hb10 : bottom10 f ((s.pos + b) * 19 + (18 - s.start_digit)) =
        f.limbs.getD (s.pos + b) 0 / 10 ^ (18 - s.start_digit) % 10 := by
      rw [Nat.add_comm ((s.pos + b) * 19) (18 - s.start_digit)]
      exact bottom10_split f (s.pos + b) (18 - s.start_digit) (by omega)
    rw [hidx, hb10, ha]
    rw [show limb10_digits (f.limbs.getD (s.pos + b) 0) =
          limb10_digits_go 19 (f.limbs.getD (s.pos + b) 0) from rfl]
    rw [limb10_digits_go_getD 19 _ (18 - s.start_digit) (by omega)]
  · refine ⟨hbase, ?_, ?_, ?_, ?_, ?_, hbl, ?_, hlen⟩
    · show (s.pos + b) * 19 + (18 - s.start_digit) + 0 =
        (s.pos + b) * 19 + (BASE10_EXP - s.start_digit - 1)
      unfold BASE10_EXP
      omega
    · show (0:Nat) ≤ 18
      omega
    · show BASE10_EXP - s.start_digit - 1 ≤ 19
      unfold BASE10_EXP
      omega
    · intro _
      refine ⟨rfl, ?_⟩
      show limb10_digits (s.buf.getD b 0) =
        limb10_digits (f.limbs.getD (s.pos + b) 0)
      rw [hbuf b (by omega)]
    · show b ≤ s.buf_len
      omega
    · intro i hi
      exact hbuf i hi

theorem fill_spec2 (f : MPTFile) (s : MPTReader) (hpos : 0 < s.pos)
    (hlen : s.pos ≤ f.limbs.length) :
    mpt_reader_fill f s = MPTStep.next (fillState f s) :=
  fill_spec f s hpos hlen

theorem get_fill_eq (f : MPTFile) (s : MPTReader)
    (hc : s.cur_digit = 0) (hbp : s.buf_pos = 0)
    (hpos : 0 < s.pos) (hlen : s.pos ≤ f.limbs.length) :
    mpt_reader_get_digit f s = mpt_reader_get_digit f (fillState f s) := by
  have hcnt : ¬ (fillState f s).buf_pos = 0 := by
    show ¬ min s.pos MPT_MAX_BUF_LEN = 0
    unfold MPT_MAX_BUF_LEN
    omega
  by_cases hb : s.base = 10 <;>
    simp [mpt_reader_get_digit, mpt_load10, mpt_load2, hb, hc, hbp, hcnt,
          fill_spec2 f s hpos hlen,
          show (fillState f s).base = s.base from rfl,
          show (fillState f s).cur_digit = s.cur_digit from rfl]

theorem rep10_fill (f : MPTFile) (s : MPTReader) (R : Nat)
    (h : Represents10 f s R) (hc : s.cur_digit = 0) (hbp : s.buf_pos = 0)
    (hpos : 0 < s.pos) :
    Represents10 f (fillState f s) R ∧
      (fillState f s).cur_digit = 0 ∧
      (fillState f s).buf_pos = min s.pos MPT_MAX_BUF_LEN ∧
      s.pos ≤ f.limbs.length := by
  obtain ⟨hbase, heq, hsd, hcd, hcur, hbp2, hbl, hbuf, hlen⟩ := h
  have hplen : s.pos ≤ f.limbs.length := by omega
  refine ⟨⟨hbase, ?_, hsd, hcd, ?_, ?_, ?_, ?_, ?_⟩, hc, rfl, hplen⟩
  · show R + s.start_digit =
      (s.pos - min s.pos MPT_MAX_BUF_LEN + min s.pos MPT_MAX_BUF_LEN) * 19 + s.cur_digit
    rw [hbp] at heq
    have : s.pos - min s.pos MPT_MAX_BUF_LEN + min s.pos MPT_MAX_BUF_LEN = s.pos := by
      omega
    rw [this]
    simpa using heq
  · intro hne
    exact absurd hc hne
  · show min s.pos MPT_MAX_BUF_LEN ≤ min s.pos MPT_MAX_BUF_LEN
    omega
  · show min s.pos MPT_MAX_BUF_LEN ≤ MPT_MAX_BUF_LEN
    omega
  · intro i hi
    exact slice_getD f.limbs (s.pos - min s.pos MPT_MAX_BUF_LEN)
      (min s.pos MPT_MAX_BUF_LEN) i hi (by omega)
  · show s.pos - min s.pos MPT_MAX_BUF_LEN + min s.pos MPT_MAX_BUF_LEN ≤ f.limbs.length
    omega

theorem rep10_step_cur (f : MPTFile) (s : MPTReader) (R c : Nat)
    (h : Represents10 f s R) (hc : s.cur_digit = c + 1) :
    ∃ R', R = R' + 1 ∧
      mpt_reader_get_digit f s =
        (DigitResult.digit (bottom10 f R'), { s with cur_digit := c }) ∧
      Represents10 f { s with cur_digit := c } R' := by
  obtain ⟨hbase, heq, hsd, hcd, hcur, hbp2, hbl, hbuf, hlen⟩ := h
  obtain ⟨hsd0, hlimb⟩ := hcur (by omega)
  have hR : R = ((s.pos + s.buf_pos) * 19 + c) + 1 := by omega
  refine ⟨(s.pos + s.buf_pos) * 19 + c, hR, ?_, ?_⟩
  · rw [get10_cur f s c hbase hc]
    have hb10 : bottom10 f ((s.pos + s.buf_pos) * 19 + c) =
        f.limbs.getD (s.pos + s.buf_pos) 0 / 10 ^ c % 10 := by
      rw [Nat.add_comm ((s.pos + s.buf_pos) * 19) c]
      exact bottom10_split f (s.pos + s.buf_pos) c (by omega)
    rw [hb10, hlimb]
    rw [show limb10_digits (f.limbs.getD (s.pos + s.buf_pos) 0) =
          limb10_digits_go 19 (f.limbs.getD (s.pos + s.buf_pos) 0) from rfl]
    rw [limb10_digits_go_getD 19 _ c (by omega)]
  · refine ⟨hbase, ?_, hsd, ?_, ?_, hbp2, hbl, hbuf, hlen⟩
    · show (s.pos + s.buf_pos) * 19 + c + s.start_digit =
        (s.pos + s.buf_pos) * 19 + c
      omega
    · show c ≤ 19
      omega
    · intro hne
      exact ⟨hsd0, hlimb⟩

/-- One step of the base-10 digit stream: from a state representing
remaining supply `R`, `mpt_reader_get_digit` returns end-of-data (state
unchanged) when `R = 0`, and otherwise the digit `bottom10 f R'` for
`R = R' + 1`, moving to a state representing `R'`. -/
theorem rep10_step (f : MPTFile) (s : MPTReader) (R : Nat)
    (h : Represents10 f s R) :
    (R = 0 → mpt_reader_get_digit f s = (DigitResult.eod, s)) ∧
    (∀ R', R = R' + 1 → ∃ s',
      mpt_reader_get_digit f s = (DigitResult.digit (bottom10 f R'), s') ∧
      Represents10 f s' R') := by
  constructor
  · intro hR0
    have heq := h.heq
    have hsd := h.hsd
    have hc : s.cur_digit = 0 := by
      by_contra hne
      obtain ⟨hsd0, _⟩ := h.hcur hne
      omega
    have hn : s.pos = 0 ∧ s.buf_pos = 0 := by omega
    exact get_eod f s hc hn.2 hn.1
  · intro R' hR'
    rcases Nat.eq_zero_or_pos s.cur_digit with hc | hc
    · rcases Nat.eq_zero_or_pos s.buf_pos with hbp | hbp
      · have hpos : 0 < s.pos := by
          have heq := h.heq
          have hsd := h.hsd
          omega
        obtain ⟨hrep1, hc1, hbp1, hplen⟩ := rep10_fill f s R h hc hbp hpos
        have hcnt : min s.pos MPT_MAX_BUF_LEN = (min s.pos MPT_MAX_BUF_LEN - 1) + 1 := by
          unfold MPT_MAX_BUF_LEN
          omega
        obtain ⟨R'', hR'', hget, hrep2⟩ :=
          rep10_step_fresh f (fillState f s) R (min s.pos MPT_MAX_BUF_LEN - 1)
            hrep1 hc1 (by rw [hbp1]; exact hcnt)
        obtain rfl : R'' = R' := by omega
        refine ⟨_, ?_, hrep2⟩
        rw [get_fill_eq f s hc hbp hpos hplen, hget]
      · obtain ⟨b, hbpe⟩ : ∃ b, s.buf_pos = b + 1 := ⟨s.buf_pos - 1, by omega⟩
        obtain ⟨R'', hR'', hget, hrep2⟩ := rep10_step_fresh f s R b h hc hbpe
        obtain rfl : R'' = R' := by omega
        exact ⟨_, hget, hrep2⟩
    · obtain ⟨c, hcc⟩ : ∃ c, s.cur_digit = c + 1 := ⟨s.cur_digit - 1, by omega⟩
      obtain ⟨R'', hR'', hget, hrep2⟩ := rep10_step_cur f s R c h hcc
      obtain rfl : R'' = R' := by omega
      exact ⟨_, hget, hrep2⟩

/-- Characterization of `k` successive `mpt_reader_get_digit` results
for a base-10 stream with remaining supply `R`. -/
theorem pull10_eq (f : MPTFile) (k : Nat) :
    ∀ (s : MPTReader) (R : Nat), Represents10 f s R →
      mpt_pull f s k = (List.range k).map
        (fun i => if i < R then DigitResult.digit (bottom10 f (R - 1 - i))
                  else DigitResult.eod) := by
  induction k with
  | zero =>
      intro s R _
      simp [mpt_pull]
  | succ k ih =>
      intro s R h
      obtain ⟨hstep0, hstep1⟩ := rep10_step f s R h
      rcases Nat.eq_zero_or_pos R with hR | hR
      · subst hR
        have hget := hstep0 rfl
        simp only [mpt_pull, hget]
        have hconst : ∀ m : Nat, (List.range m).map
            (fun i => if i < 0 then DigitResult.digit (bottom10 f (0 - 1 - i))
                      else DigitResult.eod) = List.replicate m DigitResult.eod := by
          intro m
          simp
        rw [ih s 0 h, hconst k, hconst (k + 1), List.replicate_succ]
      · obtain ⟨R', rfl⟩ : ∃ R', R = R' + 1 := ⟨R - 1, by omega⟩
        obtain ⟨s', hget, hrep'⟩ := hstep1 R' rfl
        simp only [mpt_pull, hget]
        rw [ih s' R' hrep', List.range_succ_eq_map]
        simp only [List.map_cons, List.map_map]
        congr 1
        · simp
        · refine List.map_congr_left ?_
          intro i _
          show (if i < R' then DigitResult.digit (bottom10 f (R' - 1 - i))
                else DigitResult.eod) =
            (if i + 1 < R' + 1 then DigitResult.digit (bottom10 f (R' + 1 - 1 - (i + 1)))
             else DigitResult.eod)
          have harg : R' + 1 - 1 - (i + 1) = R' - 1 - i := by omega
          rw [harg]
          by_cases hi : i < R'
          · rw [if_pos hi, if_pos (by omega)]
          · rw [if_neg hi, if_neg (by omega)]

/-- Inversion of a successful `mpt_reader_open`: every check passed and
the returned state is the literal initial state. -/
theorem open_ok_inv (f : MPTFile) (b p : Nat) (s : MPTReader)
    (h : mpt_reader_open f b p = Except.ok s) :
    (b = 10 ∨ b = 2 ∨ b = 16) ∧ headerOk f ∧ 0 < limb_offset f.h b p ∧
    s = { base := b
          base2_exp := if b = 10 then 0 else find_base2_exp b
          base2_mask := if b = 10 then 0 else 2 ^ find_base2_exp b - 1
          buf := []
          buf_pos := 0
          buf_len := 0
          pos := (limb_offset f.h b p).toNat
          start_digit := scaled_start b p % digits_per_limb b
          cur_digit := 0
          cur_limb2 := 0
          cur_limb10 := List.replicate BASE10_EXP 0 } := by
  unfold mpt_reader_open at h
  by_cases h1 : ¬(b = 10 ∨ b = 2 ∨ b = 16)
  · rw [if_pos h1] at h
    exact absurd h (by simp)
  rw [if_neg h1] at h
  by_cases h2 : ¬f.headerPresent = true
  · rw [if_pos h2] at h
    exact absurd h (by simp)
  rw [if_neg h2] at h
  by_cases h3 : f.h.magic ≠ mpt_magic
  · rw [if_pos h3] at h
    exact absurd h (by simp)
  rw [if_neg h3] at h
  by_cases h4 : f.h.type ≠ MPT_TYPE_MPF
  · rw [if_pos h4] at h
    exact absurd h (by simp)
  rw [if_neg h4] at h
  by_cases h5 : f.h.expn < 0
  · rw [if_pos h5] at h
    exact absurd h (by simp)
  rw [if_neg h5] at h
  by_cases h6 : limb_offset f.h b p ≤ 0
  · rw [if_pos h6] at h
    exact absurd h (by simp)
  rw [if_neg h6] at h
  refine ⟨by tauto, ⟨by tauto, by tauto, by tauto, by omega⟩, by omega, ?_⟩
  have := Except.ok.inj h
  exact this.symm

theorem open10_rep (f : MPTFile) (p : Nat) (s : MPTReader)
    (hwf : f.h.len ≤ f.limbs.length)
    (h : mpt_reader_open f 10 p = Except.ok s) :
    p < 19 * mptM f ∧ Represents10 f s (19 * mptM f - p) := by
  obtain ⟨_, hOk, hoff, hs⟩ := open_ok_inv f 10 p s h
  obtain ⟨_, _, _, hexp⟩ := hOk
  have hE : f.h.expn = (f.h.expn.toNat : Int) := (Int.toNat_of_nonneg hexp).symm
  have hoffeq : limb_offset f.h 10 p =
      (f.h.len : Int) - (f.h.expn.toNat : Int) - ((p / 19 : Nat) : Int) := by
    unfold limb_offset scaled_start digits_per_limb BASE10_EXP
    rw [← hE]
    norm_num
  rw [hoffeq] at hoff
  have hlt : p / 19 + f.h.expn.toNat < f.h.len := by omega
  have hM : p < 19 * mptM f := by
    unfold mptM
    omega
  have hpos : (limb_offset f.h 10 p).toNat = f.h.len - f.h.expn.toNat - p / 19 := by
    rw [hoffeq]
    omega
  have hsd : scaled_start 10 p % digits_per_limb 10 = p % 19 := by
    unfold scaled_start digits_per_limb BASE10_EXP
    norm_num
  refine ⟨hM, ?_⟩
  rw [hs]
  refine ⟨rfl, ?_, ?_, ?_, ?_, ?_, ?_, ?_, ?_⟩
  · show 19 * mptM f - p + scaled_start 10 p % digits_per_limb 10 =
      ((limb_offset f.h 10 p).toNat + 0) * 19 + 0
    rw [hsd, hpos]
    unfold mptM
    omega
  · show scaled_start 10 p % digits_per_limb 10 ≤ 18
    rw [hsd]
    omega
  · show (0:Nat) ≤ 19
    omega
  · intro hne
    exact absurd rfl hne
  · show (0:Nat) ≤ 0
    omega
  · show (0:Nat) ≤ MPT_MAX_BUF_LEN
    omega
  · intro i hi
    exact absurd hi (show ¬ i < 0 by omega)
  · show (limb_offset f.h 10 p).toNat + 0 ≤ f.limbs.length
    rw [hpos]
    omega

theorem drop_map_range {α : Type} (g₁ g₂ : Nat → α) (j k : Nat)
    (hg : ∀ i, g₁ (j + i) = g₂ i) :
    ((List.range k).map g₁).drop j = (List.range (k - j)).map g₂ := by
  apply List.ext_getElem
  · simp
  · intro i h1 h2
    simp only [List.getElem_drop, List.getElem_map, List.getElem_range]
    exact hg i

theorem c1_base10 (f : MPTFile) (p j k : Nat) (s₁ s₂ : MPTReader)
    (hwf : f.h.len ≤ f.limbs.length)
    (h₁ : mpt_reader_open f 10 p = Except.ok s₁)
    (h₂ : mpt_reader_open f 10 (p + j) = Except.ok s₂) :
    (mpt_pull f s₁ k).drop j = mpt_pull f s₂ (k - j) := by
  obtain ⟨hp1, hrep1⟩ := open10_rep f p s₁ hwf h₁
  obtain ⟨hp2, hrep2⟩ := open10_rep f (p + j) s₂ hwf h₂
  rw [pull10_eq f k s₁ _ hrep1, pull10_eq f (k - j) s₂ _ hrep2]
  apply drop_map_range
  intro i
  by_cases hi : j + i < 19 * mptM f - p
  · rw [if_pos hi, if_pos (by omega)]
    have harg : 19 * mptM f - p - 1 - (j + i) = 19 * mptM f - (p + j) - 1 - i := by
      omega
    rw [harg]
  · rw [if_neg hi, if_neg (by omega)]

theorem dvd_add_le (e a b : Nat) (ha : e ∣ a) (hb : e ∣ b) (h : a < b) :
    a + e ≤ b := by
  obtain ⟨u, rfl⟩ := ha
  obtain ⟨v, rfl⟩ := hb
  have he : 0 < e := by
    rcases Nat.eq_zero_or_pos e with h0 | h0
    · subst h0
      simp at h
    · exact h0
  have huv : u < v := by
    by_contra hle
    exact absurd (Nat.mul_le_mul_left e (by omega : v ≤ u)) (by omega)
  calc e * u + e = e * (u + 1) := by ring
    _ ≤ e * v := Nat.mul_le_mul_left e (by omega)

theorem div64 (m r : Nat) (hr : r < 64) : (r + m * 64) / 64 = m := by
  rw [Nat.add_mul_div_right _ _ (by norm_num : (0:Nat) < 64),
      Nat.div_eq_of_lt hr, Nat.zero_add]

theorem mod64 (m r : Nat) (hr : r < 64) : (r + m * 64) % 64 = r := by
  rw [Nat.add_mul_mod_self_right, Nat.mod_eq_of_lt hr]

theorem bottom2_split (f : MPTFile) (e m r : Nat) (hr : r < 64) :
    bottom2 f e (r + m * 64) = (f.limbs.getD m 0 >>> r) &&& (2 ^ e - 1) := by
  unfold bottom2
  rw [div64 m r hr, mod64 m r hr]

theorem get2_cur (f : MPTFile) (s : MPTReader)
    (hb : ¬ s.base = 10) (hc : s.cur_digit ≠ 0) :
    mpt_reader_get_digit f s =
      (DigitResult.digit
         ((s.cur_limb2 >>> (s.cur_digit - s.base2_exp)) &&& s.base2_mask),
       { s with cur_digit := s.cur_digit - s.base2_exp }) := by
  unfold mpt_reader_get_digit mpt_load2
  simp [hb, hc]

theorem get2_fresh (f : MPTFile) (s : MPTReader) (b : Nat)
    (hb : ¬ s.base = 10) (hc : s.cur_digit = 0) (hbp : s.buf_pos = b + 1) :
    mpt_reader_get_digit f s =
      (DigitResult.digit
         ((s.buf.getD b 0 >>> (64 - s.start_digit - s.base2_exp)) &&& s.base2_mask),
       { s with buf_pos := b
                cur_limb2 := s.buf.getD b 0
                cur_digit := 64 - s.start_digit - s.base2_exp
                start_digit := 0 }) := by
  unfold mpt_reader_get_digit mpt_load2
  simp [hb, hc, hbp]

theorem rep2_step_cur (f : MPTFile) (e : Nat) (s : MPTReader) (R : Nat)
    (h : Represents2 f e s R) (hc : s.cur_digit ≠ 0) :
    ∃ R', R = R' + e ∧
      mpt_reader_get_digit f s =
        (DigitResult.digit (bottom2 f e R'),
         { s with cur_digit := s.cur_digit - s.base2_exp }) ∧
      Represents2 f e { s with cur_digit := s.cur_digit - s.base2_exp } R' := by
  obtain ⟨hbase, hexp, hmask, he, hdvd64, heq, hsd, hsddvd, hcd, hcddvd, hcur,
          hbp2, hbl, hbuf, hlen⟩ := h
  obtain ⟨hsd0, hlimb⟩ := hcur hc
  have hce : e ≤ s.cur_digit := Nat.le_of_dvd (by omega) hcddvd
  have hR : R = ((s.pos + s.buf_pos) * 64 + (s.cur_digit - e)) + e := by omega
  refine ⟨(s.pos + s.buf_pos) * 64 + (s.cur_digit - e), hR, ?_, ?_⟩
  · rw [get2_cur f s hbase hc]
    have hb2 : bottom2 f e ((s.pos + s.buf_pos) * 64 + (s.cur_digit - e)) =
        (f.limbs.getD (s.pos + s.buf_pos) 0 >>> (s.cur_digit - e)) &&& (2 ^ e - 1) := by
      rw [Nat.add_comm ((s.pos + s.buf_pos) * 64) (s.cur_digit - e)]
      exact bottom2_split f e (s.pos + s.buf_pos) (s.cur_digit - e) (by omega)
    rw [hb2, hlimb, hexp, hmask]
  · refine ⟨hbase, hexp, hmask, he, hdvd64, ?_, hsd, hsddvd, ?_, ?_, ?_,
            hbp2, hbl, hbuf, hlen⟩
    · show (s.pos + s.buf_pos) * 64 + (s.cur_digit - e) + s.start_digit =
        (s.pos + s.buf_pos) * 64 + (s.cur_digit - s.base2_exp)
      rw [hexp]
      omega
    · show s.cur_digit - s.base2_exp ≤ 64
      rw [hexp]
      omega
    · show e ∣ s.cur_digit - s.base2_exp
      rw [hexp]
      exact Nat.dvd_sub' hcddvd dvd_rfl
    · intro hne
      exact ⟨hsd0, hlimb⟩

theorem rep2_step_fresh (f : MPTFile) (e : Nat) (s : MPTReader) (R b : Nat)
    (h : Represents2 f e s R) (hc : s.cur_digit = 0) (hbp : s.buf_pos = b + 1) :
    ∃ R', R = R' + e ∧
      mpt_reader_get_digit f s =
        (DigitResult.digit (bottom2 f e R'),
         { s with buf_pos := b
                  cur_limb2 := s.buf.getD b 0
                  cur_digit := 64 - s.start_digit - s.base2_exp
                  start_digit := 0 }) ∧
      Represents2 f e
        { s with buf_pos := b
                 cur_limb2 := s.buf.getD b 0
                 cur_digit := 64 - s.start_digit - s.base2_exp
                 start_digit := 0 } R' := by
  obtain ⟨hbase, hexp, hmask, he, hdvd64, heq, hsd, hsddvd, hcd, hcddvd, hcur,
          hbp2, hbl, hbuf, hlen⟩ := h
  rw [hbp] at heq hbp2
  have hse : s.start_digit + e ≤ 64 := dvd_add_le e s.start_digit 64 hsddvd hdvd64 (by omega)
  have hmul : (s.pos + (b + 1)) * 64 = (s.pos + b) * 64 + 64 := by ring
  have hR : R = ((s.pos + b) * 64 + (64 - s.start_digit - e)) + e := by omega
  refine ⟨(s.pos + b) * 64 + (64 - s.start_digit - e), hR, ?_, ?_⟩
  · rw [get2_fresh f s b hbase hc hbp]
    have ha : s.buf.getD b 0 = f.limbs.getD (s.pos + b) 0 := hbuf b (by omega)
    have hb2 : bottom2 f e ((s.pos + b) * 64 + (64 - s.start_digit - e)) =
        (f.limbs.getD (s.pos + b) 0 >>> (64 - s.start_digit - e)) &&& (2 ^ e - 1) := by
      rw [Nat.add_comm ((s.pos + b) * 64) (64 - s.start_digit - e)]
      exact bottom2_split f e (s.pos + b) (64 - s.start_digit - e) (by omega)
    rw [hb2, ha, hexp, hmask]
  · refine ⟨hbase, hexp, hmask, he, hdvd64, ?_, ?_, ?_, ?_, ?_, ?_, ?_, hbl, ?_, hlen⟩
    · show (s.pos + b) * 64 + (64 - s.start_digit - e) + 0 =
        (s.pos + b) * 64 + (64 - s.start_digit - s.base2_exp)
      rw [hexp]
      omega
    · show (0:Nat) ≤ 63
      omega
    · show e ∣ 0
      exact Nat.dvd_zero e
    · show 64 - s.start_digit - s.base2_exp ≤ 64
      rw [hexp]
      omega
    · show e ∣ 64 - s.start_digit - s.base2_exp
      rw [hexp]
      exact Nat.dvd_sub' (Nat.dvd_sub' hdvd64 hsddvd) dvd_rfl
    · intro hne
      refine ⟨rfl, ?_⟩
      show s.buf.getD b 0 = f.limbs.getD (s.pos + b) 0
      exact hbuf b (by omega)
    · show b ≤ s.buf_len
      omega
    · intro i hi
      exact hbuf i hi

theorem rep2_fill (f : MPTFile) (e : Nat) (s : MPTReader) (R : Nat)
    (h : Represents2 f e s R) (hc : s.cur_digit = 0) (hbp : s.buf_pos = 0) :
    Represents2 f e (fillState f s) R ∧
      (fillState f s).cur_digit = 0 ∧
      (fillState f s).buf_pos = min s.pos MPT_MAX_BUF_LEN ∧
      s.pos ≤ f.limbs.length := by
  obtain ⟨hbase, hexp, hmask, he, hdvd64, heq, hsd, hsddvd, hcd, hcddvd, hcur,
          hbp2, hbl, hbuf, hlen⟩ := h
  have hplen : s.pos ≤ f.limbs.length := by omega
  refine ⟨⟨hbase, hexp, hmask, he, hdvd64, ?_, hsd, hsddvd, hcd, hcddvd, ?_,
           ?_, ?_, ?_, ?_⟩, hc, rfl, hplen⟩
  · show R + s.start_digit =
      (s.pos - min s.pos MPT_MAX_BUF_LEN + min s.pos MPT_MAX_BUF_LEN) * 64 + s.cur_digit
    rw [hbp] at heq
    have hmin : s.pos - min s.pos MPT_MAX_BUF_LEN + min s.pos MPT_MAX_BUF_LEN = s.pos := by
      omega
    rw [hmin]
    simpa using heq
  · intro hne
    exact absurd hc hne
  · show min s.pos MPT_MAX_BUF_LEN ≤ min s.pos MPT_MAX_BUF_LEN
    omega
  · show min s.pos MPT_MAX_BUF_LEN ≤ MPT_MAX_BUF_LEN
    omega
  · intro i hi
    exact slice_getD f.limbs (s.pos - min s.pos MPT_MAX_BUF_LEN)
      (min s.pos MPT_MAX_BUF_LEN) i hi (by omega)
  · show s.pos - min s.pos MPT_MAX_BUF_LEN + min s.pos MPT_MAX_BUF_LEN ≤ f.limbs.length
    omega

/-- One step of the power-of-two-base digit stream. -/
theorem rep2_step (f : MPTFile) (e : Nat) (s : MPTReader) (R : Nat)
    (h : Represents2 f e s R) :
    (R = 0 → mpt_reader_get_digit f s = (DigitResult.eod, s)) ∧
    (∀ R', R = R' + e → ∃ s',
      mpt_reader_get_digit f s = (DigitResult.digit (bottom2 f e R'), s') ∧
      Represents2 f e s' R') := by
  constructor
  · intro hR0
    have heq := h.heq
    have hsd := h.hsd
    have hc : s.cur_digit = 0 := by
      by_contra hne
      obtain ⟨hsd0, _⟩ := h.hcur hne
      omega
    have hn : s.pos = 0 ∧ s.buf_pos = 0 := by omega
    exact get_eod f s hc hn.2 hn.1
  · intro R' hR'
    have he := h.he
    rcases Nat.eq_zero_or_pos s.cur_digit with hc | hc
    · rcases Nat.eq_zero_or_pos s.buf_pos with hbp | hbp
      · have hpos : 0 < s.pos := by
          have heq := h.heq
          have hsd := h.hsd
          omega
        obtain ⟨hrep1, hc1, hbp1, hplen⟩ := rep2_fill f e s R h hc hbp
        have hcnt : min s.pos MPT_MAX_BUF_LEN = (min s.pos MPT_MAX_BUF_LEN - 1) + 1 := by
          unfold MPT_MAX_BUF_LEN
          omega
        obtain ⟨R'', hR'', hget, hrep2⟩ :=
          rep2_step_fresh f e (fillState f s) R (min s.pos MPT_MAX_BUF_LEN - 1)
            hrep1 hc1 (by rw [hbp1]; exact hcnt)
        obtain rfl : R'' = R' := by omega
        refine ⟨_, ?_, hrep2⟩
        rw [get_fill_eq f s hc hbp hpos hplen, hget]
      · obtain ⟨b, hbpe⟩ : ∃ b, s.buf_pos = b + 1 := ⟨s.buf_pos - 1, by omega⟩
        obtain ⟨R'', hR'', hget, hrep2⟩ := rep2_step_fresh f e s R b h hc hbpe
        obtain rfl : R'' = R' := by omega
        exact ⟨_, hget, hrep2⟩
    · obtain ⟨R'', hR'', hget, hrep2⟩ := rep2_step_cur f e s R h (by omega)
      obtain rfl : R'' = R' := by omega
      exact ⟨_, hget, hrep2⟩

/-- Characterization of `k` successive `mpt_reader_get_digit` results
for a power-of-two-base stream with `R` bits of supply left. -/
theorem pull2_eq (f : MPTFile) (e : Nat) (k : Nat) :
    ∀ (s : MPTReader) (R : Nat), Represents2 f e s R →
      mpt_pull f s k = (List.range k).map
        (fun i => if (i + 1) * e ≤ R then DigitResult.digit (bottom2 f e (R - (i + 1) * e))
                  else DigitResult.eod) := by
  induction k with
  | zero =>
      intro s R _
      simp [mpt_pull]
  | succ k ih =>
      intro s R h
      have he := h.he
      have hRdvd : e ∣ R := by
        have heq := h.heq
        have h64 : e ∣ (s.pos + s.buf_pos) * 64 := Dvd.dvd.mul_left h.hdvd64 _
        have hR : R = (s.pos + s.buf_pos) * 64 + s.cur_digit - s.start_digit := by
          omega
        rw [hR]
        exact Nat.dvd_sub' (Nat.dvd_add h64 h.hcddvd) h.hsddvd
      obtain ⟨hstep0, hstep1⟩ := rep2_step f e s R h
      rcases Nat.eq_zero_or_pos R with hR | hR
      · subst hR
        have hget := hstep0 rfl
        have hfalse : ∀ i : Nat, ¬ (i + 1) * e ≤ 0 := fun i =>
          Nat.not_le.mpr (Nat.mul_pos (Nat.succ_pos i) he)
        have hconst : ∀ m : Nat, (List.range m).map
            (fun i => if (i + 1) * e ≤ 0 then DigitResult.digit (bottom2 f e (0 - (i + 1) * e))
                      else DigitResult.eod) = List.replicate m DigitResult.eod := by
          intro m
          have hcg : (List.range m).map
              (fun i => if (i + 1) * e ≤ 0 then DigitResult.digit (bottom2 f e (0 - (i + 1) * e))
                        else DigitResult.eod) =
              (List.range m).map (fun _ => DigitResult.eod) :=
            List.map_congr_left (fun i _ => if_neg (hfalse i))
          rw [hcg]
          simp
        simp only [mpt_pull, hget]
        rw [ih s 0 h, hconst k, hconst (k + 1), List.replicate_succ]
      · have heR : e ≤ R := Nat.le_of_dvd hR hRdvd
        obtain ⟨R', rfl⟩ : ∃ R', R = R' + e := ⟨R - e, by omega⟩
        obtain ⟨s', hget, hrep'⟩ := hstep1 R' rfl
        simp only [mpt_pull, hget]
        rw [ih s' R' hrep', List.range_succ_eq_map]
        simp only [List.map_cons, List.map_map]
        congr 1
        · have h1 : (0 + 1) * e = e := by ring
          rw [h1, if_pos (by omega)]
          have h2 : R' + e - e = R' := by omega
          rw [h2]
        · refine List.map_congr_left ?_
          intro i _
          show (if (i + 1) * e ≤ R' then DigitResult.digit (bottom2 f e (R' - (i + 1) * e))
                else DigitResult.eod) =
            (if (i + 1 + 1) * e ≤ R' + e
             then DigitResult.digit (bottom2 f e (R' + e - (i + 1 + 1) * e))
             else DigitResult.eod)
          have hexp : (i + 1 + 1) * e = (i + 1) * e + e := by ring
          rw [hexp]
          by_cases hi : (i + 1) * e ≤ R'
          · rw [if_pos hi, if_pos (by omega)]
            have harg : R' + e - ((i + 1) * e + e) = R' - (i + 1) * e := by omega
            rw [harg]
          · rw [if_neg hi, if_neg (by omega)]

theorem open2_rep (f : MPTFile) (p : Nat) (s : MPTReader) (b e : Nat)
    (hwf : f.h.len ≤ f.limbs.length)
    (hbne : b ≠ 10) (hfind : find_base2_exp b = e) (he : 0 < e) (hdvd : e ∣ 64)
    (h : mpt_reader_open f b p = Except.ok s) :
    p * e < 64 * mptM f ∧ Represents2 f e s (64 * mptM f - p * e) := by
  obtain ⟨_, hOk, hoff, hs⟩ := open_ok_inv f b p s h
  obtain ⟨_, _, _, hexp0⟩ := hOk
  have hE : f.h.expn = (f.h.expn.toNat : Int) := (Int.toNat_of_nonneg hexp0).symm
  have hss : scaled_start b p = p * e := by
    unfold scaled_start
    rw [if_neg hbne, hfind]
  have hdpl : digits_per_limb b = 64 := by
    unfold digits_per_limb
    rw [if_neg hbne]
  have hoffeq : limb_offset f.h b p =
      (f.h.len : Int) - (f.h.expn.toNat : Int) - ((p * e / 64 : Nat) : Int) := by
    unfold limb_offset
    rw [hss, hdpl, ← hE]
  rw [hoffeq] at hoff
  have hlt : p * e / 64 + f.h.expn.toNat < f.h.len := by omega
  have hM : p * e < 64 * mptM f := by
    unfold mptM
    omega
  have hposN : (limb_offset f.h b p).toNat = f.h.len - f.h.expn.toNat - p * e / 64 := by
    rw [hoffeq]
    omega
  have hsd : scaled_start b p % digits_per_limb b = p * e % 64 := by
    rw [hss, hdpl]
  have hsddvd : e ∣ p * e % 64 := by
    have hmod : p * e % 64 = p * e - 64 * (p * e / 64) := by omega
    rw [hmod]
    exact Nat.dvd_sub' (Dvd.intro p (mul_comm e p)) (Dvd.dvd.mul_right hdvd _)
  refine ⟨hM, ?_⟩
  rw [hs]
  refine ⟨?_, ?_, ?_, he, hdvd, ?_, ?_, ?_, ?_, ?_, ?_, ?_, ?_, ?_, ?_⟩
  · show b ≠ 10
    exact hbne
  · show (if b = 10 then 0 else find_base2_exp b) = e
    rw [if_neg hbne, hfind]
  · show (if b = 10 then 0 else 2 ^ find_base2_exp b - 1) = 2 ^ e - 1
    rw [if_neg hbne, hfind]
  · show 64 * mptM f - p * e + scaled_start b p % digits_per_limb b =
      ((limb_offset f.h b p).toNat + 0) * 64 + 0
    rw [hsd, hposN]
    unfold mptM
    omega
  · show scaled_start b p % digits_per_limb b ≤ 63
    rw [hsd]
    omega
  · show e ∣ scaled_start b p % digits_per_limb b
    rw [hsd]
    exact hsddvd
  · show (0:Nat) ≤ 64
    omega
  · show e ∣ 0
    exact Nat.dvd_zero e
  · intro hne
    exact absurd rfl hne
  · show (0:Nat) ≤ 0
    omega
  · show (0:Nat) ≤ MPT_MAX_BUF_LEN
    omega
  · intro i hi
    exact absurd hi (show ¬ i < 0 by omega)
  · show (limb_offset f.h b p).toNat + 0 ≤ f.limbs.length
    rw [hposN]
    omega

theorem c1_base2 (f : MPTFile) (p j k : Nat) (s₁ s₂ : MPTReader) (b e : Nat)
    (hwf : f.h.len ≤ f.limbs.length)
    (hbne : b ≠ 10) (hfind : find_base2_exp b = e) (he : 0 < e) (hdvd : e ∣ 64)
    (h₁ : mpt_reader_open f b p = Except.ok s₁)
    (h₂ : mpt_reader_open f b (p + j) = Except.ok s₂) :
    (mpt_pull f s₁ k).drop j = mpt_pull f s₂ (k - j) := by
  obtain ⟨hp1, hrep1⟩ := open2_rep f p s₁ b e hwf hbne hfind he hdvd h₁
  obtain ⟨hp2, hrep2⟩ := open2_rep f (p + j) s₂ b e hwf hbne hfind he hdvd h₂
  rw [pull2_eq f e k s₁ _ hrep1, pull2_eq f e (k - j) s₂ _ hrep2]
  apply drop_map_range
  intro i
  have hje : (p + j) * e = p * e + j * e := by ring
  have hie : (j + i + 1) * e = j * e + (i + 1) * e := by ring
  rw [hie]
  by_cases hi : j * e + (i + 1) * e ≤ 64 * mptM f - p * e
  · rw [if_pos hi, if_pos (by omega)]
    have harg : 64 * mptM f - p * e - (j * e + (i + 1) * e) =
        64 * mptM f - (p + j) * e - (i + 1) * e := by
      omega
    rw [harg]
  · rw [if_neg hi, if_neg (by omega)]

/-- C1: position-consistency of `open` + repeated `get_digit`: for every
valid file and supported base, the last `k - j` results of pulling `k`
digits from a stream opened at `p` coincide with the `k - j` results of
a fresh stream opened at `p + j`. -/
theorem mpt_c1_position_consistency (f : MPTFile) (b p j k : Nat)
    (s₁ s₂ : MPTReader)
    (hwf : f.h.len ≤ f.limbs.length)
    (h₁ : mpt_reader_open f b p = Except.ok s₁)
    (h₂ : mpt_reader_open f b (p + j) = Except.ok s₂)
    (hjk : j ≤ k) :
    (mpt_pull f s₁ k).drop j = mpt_pull f s₂ (k - j) := by
  obtain ⟨hb, _, _, _⟩ := open_ok_inv f b p s₁ h₁
  rcases hb with rfl | rfl | rfl
  · exact c1_base10 f p j k s₁ s₂ hwf h₁ h₂
  · exact c1_base2 f p j k s₁ s₂ 2 1 hwf (by omega) (by decide) (by omega)
      (by decide) h₁ h₂
  · exact c1_base2 f p j k s₁ s₂ 16 4 hwf (by omega) (by decide) (by omega)
      (by decide) h₁ h₂

theorem mpt_c1_position_consistency_witness :
    file5.h.len ≤ file5.limbs.length ∧
    mpt_reader_open file5 10 0 = Except.ok rdr10_fresh ∧
    mpt_reader_open file5 10 (0 + 2) = Except.ok rdr10_p2 ∧
    (mpt_pull file5 rdr10_fresh 5).drop 2 = mpt_pull file5 rdr10_p2 3 :=
  ⟨by decide, by decide, by decide,
   mpt_c1_position_consistency file5 10 0 2 5 rdr10_fresh rdr10_p2
     (by decide) (by decide) (by decide) (by decide)⟩

/-- C2 counterexample: base 4 (claimed supported by the spec) is
rejected by `mpt_reader_open` with the unsupported-base error, even on a
fully valid file. -/
theorem mpt_c2_base_check_counterexample :
    mpt_reader_open file5 4 0 = Except.error OpenError.unsupportedBase ∧
    mpt_reader_open file5 8 0 = Except.error OpenError.unsupportedBase := by
  constructor <;> decide

/-- C2 (amended): the base check of `open` succeeds exactly for
`base ∈ {10, 2, 16}`; every other base (including 4 and 8) fails with
the unsupported-base error. -/
theorem mpt_c2_base_check_amended (f : MPTFile) (b p : Nat) :
    mpt_reader_open f b p = Except.error OpenError.unsupportedBase ↔
      ¬(b = 10 ∨ b = 2 ∨ b = 16) := by
  unfold mpt_reader_open
  split_ifs with h1 h2 h3 h4 h5 h6 <;> simp_all

theorem limb10_digits_go_length (n : Nat) :
    ∀ a : Nat, (limb10_digits_go n a).length = n := by
  induction n with
  | zero => intro a; rfl
  | succ n ih =>
      intro a
      simp only [limb10_digits_go, List.length_cons, ih (a / 10)]

/-- C3 counterexample: `10^19` is a valid 64-bit limb value but does not
fit in 19 decimal digits: its 19-entry digit array decodes to `0`, not
to the limb value. -/
theorem mpt_c3_limb_digits_counterexample :
    (10:Nat) ^ 19 < 2 ^ 64 ∧
    digitListValue (limb10_digits (10 ^ 19)) ≠ 10 ^ 19 := by
  constructor <;> decide

/-- C3 (amended): for every limb value below `10^19` (the range of the
base-10^19 limbs the format stores), the 19-entry digit array computed
by the divide/modulo-by-10 loop decodes back to the limb value, so
base-10 emission loses no digit of such a limb.  (A general 64-bit value
can need 20 decimal digits; the array only captures its value mod
`10^19`.) -/
theorem mpt_c3_limb_digits_amended (a : Nat) (h : a < 10 ^ BASE10_EXP) :
    (limb10_digits a).length = BASE10_EXP ∧
    digitListValue (limb10_digits a) = a := by
  constructor
  · exact limb10_digits_go_length BASE10_EXP a
  · unfold limb10_digits
    rw [digitListValue_limb10_go BASE10_EXP a]
    unfold BASE10_EXP at h ⊢
    exact Nat.mod_eq_of_lt h

theorem mpt_c3_limb_digits_witness :
    V5 < 10 ^ BASE10_EXP ∧
    ((limb10_digits V5).length = BASE10_EXP ∧
     digitListValue (limb10_digits V5) = V5) :=
  ⟨by decide, mpt_c3_limb_digits_amended V5 (by decide)⟩

/-- C4: for every file whose header parses and every supported base,
`open` fails with the position-out-of-range error exactly when the
computed limb offset is `≤ 0`, and `open` never reads the file body
(its result does not depend on the limbs at all). -/
theorem mpt_c4_position_out_of_range (f : MPTFile) (b p : Nat)
    (hb : b = 10 ∨ b = 2 ∨ b = 16) (hh : headerOk f) :
    (limb_offset f.h b p ≤ 0 →
       mpt_reader_open f b p = Except.error OpenError.positionOutOfRange) ∧
    (0 < limb_offset f.h b p →
       mpt_reader_open f b p ≠ Except.error OpenError.positionOutOfRange) ∧
    (∀ l₁ l₂ : List Nat,
       mpt_reader_open ⟨f.headerPresent, f.h, l₁⟩ b p =
         mpt_reader_open ⟨f.headerPresent, f.h, l₂⟩ b p) := by
  obtain ⟨hp, hm, ht, he⟩ := hh
  have hnb : ¬¬(b = 10 ∨ b = 2 ∨ b = 16) := not_not_intro hb
  refine ⟨?_, ?_, fun l₁ l₂ => rfl⟩
  · intro hle
    unfold mpt_reader_open
    rw [if_neg hnb, if_neg (by simp [hp]), if_neg (by simp [hm]),
        if_neg (by simp [ht]), if_neg (by omega), if_pos hle]
  · intro hgt
    unfold mpt_reader_open
    rw [if_neg hnb, if_neg (by simp [hp]), if_neg (by simp [hm]),
        if_neg (by simp [ht]), if_neg (by omega), if_neg (by omega)]
    simp

theorem mpt_c4_position_out_of_range_witness :
    limb_offset file5.h 10 19 ≤ 0 ∧
    mpt_reader_open file5 10 19 = Except.error OpenError.positionOutOfRange :=
  ⟨by decide,
   (mpt_c4_position_out_of_range file5 10 19 (Or.inl rfl) (by decide)).1 (by decide)⟩

/-- C5: the concrete scenario: one limb holding `3141592653589793238`,
`storedLength = 1`, `exponent = 0`, base 10, `startPosition = 0`; the
first five `mpt_reader_getc` results are the character codes of
"31415". -/
theorem mpt_c5_concrete_extraction :
    (mpt_reader_open file5 10 0).map (fun s => mpt_pullc file5 s 5) =
      Except.ok [DigitResult.digit 51, DigitResult.digit 49, DigitResult.digit 52,
                 DigitResult.digit 49, DigitResult.digit 53] := by
  decide

/-- C6 counterexample: on a file whose header claims one limb but whose
body is empty, the refill's `fread` comes up short and the code calls
`abort()` — the process terminates; no error value (and in particular no
I/O-error result) is returned to the caller of `mpt_reader_get_digit`,
and the condition is not reported as end-of-data. -/
theorem mpt_c6_short_read_counterexample :
    mpt_reader_fill file6 rdr10_fresh = MPTStep.abortProcess ∧
    mpt_reader_get_digit file6 rdr10_fresh = (DigitResult.abortProcess, rdr10_fresh) ∧
    DigitResult.abortProcess ≠ DigitResult.eod := by
  refine ⟨by decide, by decide, by decide⟩

/-- C6 (amended): whenever a refill's read would return fewer bytes than
requested (the remaining file position exceeds the body length), the
refill calls `abort()` and the process terminates — unrecoverable, not
retried, not reported as end-of-data, and no error value reaches the
caller of `mpt_reader_get_digit`. -/
theorem mpt_c6_short_read_amended (f : MPTFile) (s : MPTReader)
    (h1 : s.cur_digit = 0) (h2 : s.buf_pos = 0) (h3 : f.limbs.length < s.pos) :
    mpt_reader_fill f s = MPTStep.abortProcess ∧
    mpt_reader_get_digit f s = (DigitResult.abortProcess, s) :=
  ⟨fill_abort f s h3, get_abort f s h1 h2 h3⟩

theorem mpt_c6_short_read_witness :
    (rdr10_fresh.cur_digit = 0 ∧ rdr10_fresh.buf_pos = 0 ∧
     file6.limbs.length < rdr10_fresh.pos) ∧
    mpt_reader_fill file6 rdr10_fresh = MPTStep.abortProcess ∧
    mpt_reader_get_digit file6 rdr10_fresh = (DigitResult.abortProcess, rdr10_fresh) :=
  ⟨⟨rfl, rfl, by decide⟩,
   mpt_c6_short_read_amended file6 rdr10_fresh rfl rfl (by decide)⟩

/-- C7 counterexample: on a fully live reader, the first
`mpt_reader_close` succeeds but the second dereferences and frees the
already-freed reader struct — undefined behavior (use-after-free /
double free), not a safe no-op. -/
theorem mpt_c7_close_counterexample :
    (mpt_reader_close ⟨AllocState.live, AllocState.live, AllocState.live⟩).isSome = true ∧
    (mpt_reader_close ⟨AllocState.live, AllocState.live, AllocState.live⟩).bind
      mpt_reader_close = none := by
  constructor <;> decide

/-- C7 (amended): `mpt_reader_close` is safe to call once on any reader
whose handle and buffer are not already freed — including the cleanup
path after a failed `open`, where the handle and buffer may still be
`NULL` — but it frees the reader struct itself, so calling it a second
time on the same reader is undefined behavior (use-after-free of the
struct and double free), not a safe no-op. -/
theorem mpt_c7_close_amended (r : ReaderAlloc)
    (h1 : r.self = AllocState.live)
    (h2 : r.file ≠ AllocState.freed) (h3 : r.buf ≠ AllocState.freed) :
    (mpt_reader_close r).isSome = true ∧
    (∀ r', mpt_reader_close r = some r' → mpt_reader_close r' = none) := by
  constructor
  · unfold mpt_reader_close
    rw [if_neg (by simp [h1]), if_neg h2, if_neg h3]
    rfl
  · intro r' hr'
    unfold mpt_reader_close at hr'
    rw [if_neg (by simp [h1]), if_neg h2, if_neg h3] at hr'
    have hr'' := Option.some.inj hr'
    unfold mpt_reader_close
    rw [← hr'']
    rfl

theorem mpt_c7_close_witness :
    (mpt_reader_close ⟨AllocState.live, AllocState.isNull, AllocState.isNull⟩).isSome = true ∧
    mpt_reader_close ⟨AllocState.freed, AllocState.isNull, AllocState.isNull⟩ = none :=
  ⟨(mpt_c7_close_amended ⟨AllocState.live, AllocState.isNull, AllocState.isNull⟩
      rfl (by decide) (by decide)).1,
   (mpt_c7_close_amended ⟨AllocState.live, AllocState.isNull, AllocState.isNull⟩
      rfl (by decide) (by decide)).2
     ⟨AllocState.freed, AllocState.isNull, AllocState.isNull⟩ (by decide)⟩

theorem digitBound_get_ready (f : MPTFile) (b : Nat) (s : MPTReader)
    (hB : DigitBound b s)
    (hready : s.cur_digit ≠ 0 ∨ s.buf_pos ≠ 0 ∨ s.pos = 0 ∨ f.limbs.length < s.pos) :
    DigitBound b (mpt_step_state f s) ∧
    (∀ d s', mpt_reader_get_digit f s = (DigitResult.digit d, s') → d < b) := by
  obtain ⟨hbase, h10, hpow⟩ := hB
  by_cases hb : s.base = 10
  · obtain rfl : b = 10 := hbase ▸ hb
    have hlist := h10 rfl
    by_cases hc : s.cur_digit = 0
    · by_cases hbp : s.buf_pos = 0
      · rcases hready with h | h | h | h
        · exact absurd hc h
        · exact absurd hbp h
        · have hget := get_eod f s hc hbp h
          refine ⟨?_, ?_⟩
          · unfold mpt_step_state
            rw [hget]
            exact ⟨hbase, h10, hpow⟩
          · intro d s' hds
            rw [hget] at hds
            simp at hds
        · have hget := get_abort f s hc hbp h
          refine ⟨?_, ?_⟩
          · unfold mpt_step_state
            rw [hget]
            exact ⟨hbase, h10, hpow⟩
          · intro d s' hds
            rw [hget] at hds
            simp at hds
      · obtain ⟨b', hbpe⟩ : ∃ b', s.buf_pos = b' + 1 :=
          ⟨s.buf_pos - 1, by omega⟩
        have hget := get10_fresh f s b' hb hc hbpe
        refine ⟨?_, ?_⟩
        · unfold mpt_step_state
          rw [hget]
          refine ⟨hbase, ?_, hpow⟩
          intro _
          exact limb10_digits_go_lt BASE10_EXP (s.buf.getD b' 0)
        · intro d s' hds
          rw [hget] at hds
          have hd := (Prod.mk.inj hds).1
          have hd2 := DigitResult.digit.inj hd
          rw [← hd2]
          exact getD_lt_of_forall (by omega)
            (limb10_digits_go_lt BASE10_EXP (s.buf.getD b' 0)) _
    · obtain ⟨c, hcc⟩ : ∃ c, s.cur_digit = c + 1 := ⟨s.cur_digit - 1, by omega⟩
      have hget := get10_cur f s c hb hcc
      refine ⟨?_, ?_⟩
      · unfold mpt_step_state
        rw [hget]
        exact ⟨hbase, h10, hpow⟩
      · intro d s' hds
        rw [hget] at hds
        have hd := (Prod.mk.inj hds).1
        have hd2 := DigitResult.digit.inj hd
        rw [← hd2]
        exact getD_lt_of_forall (by omega) hlist _
  · have hbne : b ≠ 10 := by
      rw [← hbase]
      exact hb
    obtain ⟨hmask, hbpos⟩ := hpow hbne
    by_cases hc : s.cur_digit = 0
    · by_cases hbp : s.buf_pos = 0
      · rcases hready with h | h | h | h
        · exact absurd hc h
        · exact absurd hbp h
        · have hget := get_eod f s hc hbp h
          refine ⟨?_, ?_⟩
          · unfold mpt_step_state
            rw [hget]
            exact ⟨hbase, h10, hpow⟩
          · intro d s' hds
            rw [hget] at hds
            simp at hds
        · have hget := get_abort f s hc hbp h
          refine ⟨?_, ?_⟩
          · unfold mpt_step_state
            rw [hget]
            exact ⟨hbase, h10, hpow⟩
          · intro d s' hds
            rw [hget] at hds
            simp at hds
      · obtain ⟨b', hbpe⟩ : ∃ b', s.buf_pos = b' + 1 :=
          ⟨s.buf_pos - 1, by omega⟩
        have hget := get2_fresh f s b' hb hc hbpe
        refine ⟨?_, ?_⟩
        · unfold mpt_step_state
          rw [hget]
          exact ⟨hbase, h10, hpow⟩
        · intro d s' hds
          rw [hget] at hds
          have hd := (Prod.mk.inj hds).1
          have hd2 := DigitResult.digit.inj hd
          rw [← hd2]
          have hle : (s.buf.getD b' 0 >>> (64 - s.start_digit - s.base2_exp)) &&&
              s.base2_mask ≤ s.base2_mask := Nat.and_le_right
          omega
    · have hget := get2_cur f s hb hc
      refine ⟨?_, ?_⟩
      · unfold mpt_step_state
        rw [hget]
        exact ⟨hbase, h10, hpow⟩
      · intro d s' hds
        rw [hget] at hds
        have hd := (Prod.mk.inj hds).1
        have hd2 := DigitResult.digit.inj hd
        rw [← hd2]
        have hle : (s.cur_limb2 >>> (s.cur_digit - s.base2_exp)) &&&
            s.base2_mask ≤ s.base2_mask := Nat.and_le_right
        omega

theorem digitBound_get (f : MPTFile) (b : Nat) (s : MPTReader)
    (hB : DigitBound b s) :
    DigitBound b (mpt_step_state f s) ∧
    (∀ d s', mpt_reader_get_digit f s = (DigitResult.digit d, s') → d < b) := by
  by_cases hready : s.cur_digit ≠ 0 ∨ s.buf_pos ≠ 0 ∨ s.pos = 0 ∨ f.limbs.length < s.pos
  · exact digitBound_get_ready f b s hB hready
  · push_neg at hready
    obtain ⟨hc, hbp, hpos, hlen⟩ := hready
    have hpos' : 0 < s.pos := by omega
    have hgeq := get_fill_eq f s hc hbp hpos' hlen
    have hBf : DigitBound b (fillState f s) := hB
    have hreadyf : (fillState f s).cur_digit ≠ 0 ∨ (fillState f s).buf_pos ≠ 0 ∨
        (fillState f s).pos = 0 ∨ f.limbs.length < (fillState f s).pos := by
      right
      left
      show ¬ min s.pos MPT_MAX_BUF_LEN = 0
      unfold MPT_MAX_BUF_LEN
      omega
    obtain ⟨hB', hd'⟩ := digitBound_get_ready f b (fillState f s) hBf hreadyf
    refine ⟨?_, ?_⟩
    · unfold mpt_step_state at hB' ⊢
      rw [hgeq]
      exact hB'
    · intro d s' hds
      rw [hgeq] at hds
      exact hd' d s' hds

theorem digitBound_iter (f : MPTFile) (b : Nat) :
    ∀ (n : Nat) (s : MPTReader), DigitBound b s → DigitBound b (mpt_iter f s n) := by
  intro n
  induction n with
  | zero => intro s hB; exact hB
  | succ n ih =>
      intro s hB
      exact ih (mpt_step_state f s) (digitBound_get f b s hB).1

theorem digitBound_open (f : MPTFile) (b p : Nat) (s : MPTReader)
    (h : mpt_reader_open f b p = Except.ok s) : DigitBound b s := by
  obtain ⟨hb, _, _, hs⟩ := open_ok_inv f b p s h
  rw [hs]
  refine ⟨rfl, ?_, ?_⟩
  · intro _ x hx
    have hx' : ¬BASE10_EXP = 0 ∧ x = 0 := by
      simpa [List.mem_replicate] using hx
    omega
  · intro hbne
    rcases hb with rfl | rfl | rfl
    · exact absurd rfl hbne
    · refine ⟨?_, by omega⟩
      show (if (2:Nat) = 10 then 0 else 2 ^ find_base2_exp 2 - 1) = 2 - 1
      decide
    · refine ⟨?_, by omega⟩
      show (if (16:Nat) = 10 then 0 else 2 ^ find_base2_exp 16 - 1) = 16 - 1
      decide

/-- C8: every digit value produced by `mpt_reader_get_digit` on any
state reachable from a successful `open` lies in `[0, base - 1]`. -/
theorem mpt_c8_digit_range (f : MPTFile) (b p n d : Nat) (s₀ s' : MPTReader)
    (hopen : mpt_reader_open f b p = Except.ok s₀)
    (hd : mpt_reader_get_digit f (mpt_iter f s₀ n) = (DigitResult.digit d, s')) :
    d < b :=
  (digitBound_get f b (mpt_iter f s₀ n)
    (digitBound_iter f b n s₀ (digitBound_open f b p s₀ hopen))).2 d s' hd

theorem mpt_c8_digit_range_witness :
    (mpt_reader_open file5 10 0 = Except.ok rdr10_fresh ∧
     mpt_reader_get_digit file5 (mpt_iter file5 rdr10_fresh 0) =
       (DigitResult.digit 3, rdr10_after1)) ∧
    3 < 10 :=
  ⟨⟨by decide, by decide⟩,
   mpt_c8_digit_range file5 10 0 0 3 rdr10_fresh rdr10_after1
     (by decide) (by decide)⟩

theorem fill_next_inv (f : MPTFile) (s s' : MPTReader)
    (h : mpt_reader_fill f s = MPTStep.next s') :
    0 < s.pos ∧ s.pos ≤ f.limbs.length ∧ s' = fillState f s := by
  unfold mpt_reader_fill readLimbs at h
  by_cases h1 : min s.pos MPT_MAX_BUF_LEN = 0
  · simp [h1] at h
  · simp only [h1, if_false] at h
    by_cases h2 : s.pos - min s.pos MPT_MAX_BUF_LEN + min s.pos MPT_MAX_BUF_LEN ≤
        f.limbs.length
    · simp only [h2, if_true] at h
      have hs' := MPTStep.next.inj h
      exact ⟨by omega, by omega, hs'.symm⟩
    · simp only [h2, if_false] at h
      exact MPTStep.noConfusion h

theorem c9_buf_get (f : MPTFile) (s : MPTReader) (r : DigitResult) (s' : MPTReader)
    (hbp : s.buf_pos ≤ s.buf_len) (hbl : s.buf_len ≤ MPT_MAX_BUF_LEN)
    (hget : mpt_reader_get_digit f s = (r, s')) :
    (s'.buf_pos ≤ s'.buf_len ∧ s'.buf_len ≤ MPT_MAX_BUF_LEN) ∧
    (∀ d, r = DigitResult.digit d →
      (s.cur_digit ≠ 0 → s'.pos = s.pos ∧ s'.buf_pos = s.buf_pos) ∧
      (s.cur_digit = 0 → s'.pos + s'.buf_pos + 1 = s.pos + s.buf_pos)) := by
  by_cases hc : s.cur_digit = 0
  · by_cases hbp0 : s.buf_pos = 0
    · rcases Nat.eq_zero_or_pos s.pos with hpos | hpos
      · rw [get_eod f s hc hbp0 hpos] at hget
        obtain ⟨rfl, rfl⟩ : r = DigitResult.eod ∧ s = s' :=
          ⟨(Prod.mk.inj hget).1.symm, (Prod.mk.inj hget).2⟩
        refine ⟨⟨hbp, hbl⟩, ?_⟩
        intro d hd
        exact absurd hd (by simp)
      · by_cases hlen : s.pos ≤ f.limbs.length
        · rw [get_fill_eq f s hc hbp0 hpos hlen] at hget
          have hcnt : (fillState f s).buf_pos = (min s.pos MPT_MAX_BUF_LEN - 1) + 1 := by
            show min s.pos MPT_MAX_BUF_LEN = min s.pos MPT_MAX_BUF_LEN - 1 + 1
            unfold MPT_MAX_BUF_LEN
            omega
          by_cases hfb : (fillState f s).base = 10
          · rw [get10_fresh f (fillState f s) _ hfb (by exact hc) hcnt] at hget
            obtain ⟨hr, hs'⟩ := Prod.mk.inj hget
            rw [← hs']
            refine ⟨⟨?_, ?_⟩, ?_⟩
            · show min s.pos MPT_MAX_BUF_LEN - 1 ≤ min s.pos MPT_MAX_BUF_LEN
              omega
            · show min s.pos MPT_MAX_BUF_LEN ≤ MPT_MAX_BUF_LEN
              omega
            · intro d _
              refine ⟨fun hne => absurd hc hne, fun _ => ?_⟩
              show s.pos - min s.pos MPT_MAX_BUF_LEN +
                  (min s.pos MPT_MAX_BUF_LEN - 1) + 1 = s.pos + s.buf_pos
              unfold MPT_MAX_BUF_LEN at *
              omega
          · rw [get2_fresh f (fillState f s) _ hfb (by exact hc) hcnt] at hget
            obtain ⟨hr, hs'⟩ := Prod.mk.inj hget
            rw [← hs']
            refine ⟨⟨?_, ?_⟩, ?_⟩
            · show min s.pos MPT_MAX_BUF_LEN - 1 ≤ min s.pos MPT_MAX_BUF_LEN
              omega
            · show min s.pos MPT_MAX_BUF_LEN ≤ MPT_MAX_BUF_LEN
              omega
            · intro d _
              refine ⟨fun hne => absurd hc hne, fun _ => ?_⟩
              show s.pos - min s.pos MPT_MAX_BUF_LEN +
                  (min s.pos MPT_MAX_BUF_LEN - 1) + 1 = s.pos + s.buf_pos
              unfold MPT_MAX_BUF_LEN at *
              omega
        · rw [get_abort f s hc hbp0 (by omega)] at hget
          obtain ⟨rfl, rfl⟩ : r = DigitResult.abortProcess ∧ s = s' :=
            ⟨(Prod.mk.inj hget).1.symm, (Prod.mk.inj hget).2⟩
          refine ⟨⟨hbp, hbl⟩, ?_⟩
          intro d hd
          exact absurd hd (by simp)
    · obtain ⟨b', hbpe⟩ : ∃ b', s.buf_pos = b' + 1 := ⟨s.buf_pos - 1, by omega⟩
      by_cases hb : s.base = 10
      · rw [get10_fresh f s b' hb hc hbpe] at hget
        obtain ⟨hr, hs'⟩ := Prod.mk.inj hget
        rw [← hs']
        refine ⟨⟨by show b' ≤ s.buf_len; omega, hbl⟩, ?_⟩
        intro d _
        refine ⟨fun hne => absurd hc hne, fun _ => ?_⟩
        show s.pos + b' + 1 = s.pos + s.buf_pos
        omega
      · rw [get2_fresh f s b' hb hc hbpe] at hget
        obtain ⟨hr, hs'⟩ := Prod.mk.inj hget
        rw [← hs']
        refine ⟨⟨by show b' ≤ s.buf_len; omega, hbl⟩, ?_⟩
        intro d _
        refine ⟨fun hne => absurd hc hne, fun _ => ?_⟩
        show s.pos + b' + 1 = s.pos + s.buf_pos
        omega
  · by_cases hb : s.base = 10
    · obtain ⟨c, hcc⟩ : ∃ c, s.cur_digit = c + 1 := ⟨s.cur_digit - 1, by omega⟩
      rw [get10_cur f s c hb hcc] at hget
      obtain ⟨hr, hs'⟩ := Prod.mk.inj hget
      rw [← hs']
      exact ⟨⟨hbp, hbl⟩, fun d _ => ⟨fun _ => ⟨rfl, rfl⟩, fun h0 => absurd h0 hc⟩⟩
    · rw [get2_cur f s hb hc] at hget
      obtain ⟨hr, hs'⟩ := Prod.mk.inj hget
      rw [← hs']
      exact ⟨⟨hbp, hbl⟩, fun d _ => ⟨fun _ => ⟨rfl, rfl⟩, fun h0 => absurd h0 hc⟩⟩

/-- C9: the buffer invariant `cursor ≤ length ≤ capacity` holds after
`open` and is preserved by refill and next-digit; a successful refill
covers exactly the limb range `[pos', pos)` directly below the previous
one (strictly decreasing, non-overlapping); and each digit produced
consumes limbs in strictly decreasing index order: a step that reloads
(`cur_digit = 0`) moves the current-limb index `pos + buf_pos` down by
exactly one, and any other digit step leaves it unchanged. -/
theorem mpt_c9_buffer_invariant :
    (∀ (f : MPTFile) (b p : Nat) (s : MPTReader),
       mpt_reader_open f b p = Except.ok s →
       s.buf_pos ≤ s.buf_len ∧ s.buf_len ≤ MPT_MAX_BUF_LEN) ∧
    (∀ (f : MPTFile) (s s' : MPTReader),
       mpt_reader_fill f s = MPTStep.next s' →
       (s'.buf_pos ≤ s'.buf_len ∧ s'.buf_len ≤ MPT_MAX_BUF_LEN) ∧
       s'.buf_pos = s'.buf_len ∧ s'.pos + s'.buf_len = s.pos ∧ s'.pos < s.pos) ∧
    (∀ (f : MPTFile) (s : MPTReader) (r : DigitResult) (s' : MPTReader),
       s.buf_pos ≤ s.buf_len → s.buf_len ≤ MPT_MAX_BUF_LEN →
       mpt_reader_get_digit f s = (r, s') →
       (s'.buf_pos ≤ s'.buf_len ∧ s'.buf_len ≤ MPT_MAX_BUF_LEN) ∧
       (∀ d, r = DigitResult.digit d →
         (s.cur_digit ≠ 0 → s'.pos = s.pos ∧ s'.buf_pos = s.buf_pos) ∧
         (s.cur_digit = 0 → s'.pos + s'.buf_pos + 1 = s.pos + s.buf_pos))) := by
  refine ⟨?_, ?_, ?_⟩
  · intro f b p s h
    obtain ⟨_, _, _, hs⟩ := open_ok_inv f b p s h
    rw [hs]
    exact ⟨by show (0:Nat) ≤ 0; omega, by show (0:Nat) ≤ MPT_MAX_BUF_LEN; omega⟩
  · intro f s s' h
    obtain ⟨hpos, hlen, hs'⟩ := fill_next_inv f s s' h
    rw [hs']
    refine ⟨⟨?_, ?_⟩, ?_, ?_, ?_⟩
    · show min s.pos MPT_MAX_BUF_LEN ≤ min s.pos MPT_MAX_BUF_LEN
      omega
    · show min s.pos MPT_MAX_BUF_LEN ≤ MPT_MAX_BUF_LEN
      omega
    · show min s.pos MPT_MAX_BUF_LEN = min s.pos MPT_MAX_BUF_LEN
      rfl
    · show s.pos - min s.pos MPT_MAX_BUF_LEN + min s.pos MPT_MAX_BUF_LEN = s.pos
      omega
    · show s.pos - min s.pos MPT_MAX_BUF_LEN < s.pos
      unfold MPT_MAX_BUF_LEN
      omega
  · intro f s r s' hbp hbl hget
    exact c9_buf_get f s r s' hbp hbl hget

theorem mpt_c9_buffer_invariant_witness :
    mpt_reader_open file5 10 0 = Except.ok rdr10_fresh ∧
    (rdr10_fresh.buf_pos ≤ rdr10_fresh.buf_len ∧
     rdr10_fresh.buf_len ≤ MPT_MAX_BUF_LEN) :=
  ⟨by decide, mpt_c9_buffer_invariant.1 file5 10 0 rdr10_fresh (by decide)⟩

theorem getD_map_range {α : Type} (g : Nat → α) (k i : Nat) (d : α) :
    ((List.range k).map g).getD i d = if i < k then g i else d := by
  by_cases hi : i < k
  · rw [if_pos hi, List.getD_eq_getElem _ d (by simpa using hi)]
    simp
  · rw [if_neg hi, List.getD_eq_default _ d (by simpa using hi)]

/-- C10: refilling with remaining position `pos > 0` strictly decreases
`pos` by `min pos capacity`; once `mpt_reader_get_digit` reports
end-of-data the state is unchanged and every later call reports
end-of-data again; and every successfully opened stream produces only
finitely many digit results: beyond some bound `N` every pulled result
is end-of-data. -/
theorem mpt_c10_termination :
    (∀ (f : MPTFile) (s s' : MPTReader),
       0 < s.pos → mpt_reader_fill f s = MPTStep.next s' →
       s'.pos = s.pos - min s.pos MPT_MAX_BUF_LEN ∧ s'.pos < s.pos) ∧
    (∀ (f : MPTFile) (s t : MPTReader),
       mpt_reader_get_digit f s = (DigitResult.eod, t) →
       t = s ∧ mpt_reader_get_digit f t = (DigitResult.eod, t)) ∧
    (∀ (f : MPTFile) (b p : Nat) (s₀ : MPTReader),
       f.h.len ≤ f.limbs.length → mpt_reader_open f b p = Except.ok s₀ →
       ∃ N, ∀ i k, N ≤ i →
         (mpt_pull f s₀ k).getD i DigitResult.eod = DigitResult.eod) := by
  refine ⟨?_, ?_, ?_⟩
  · intro f s s' hpos h
    obtain ⟨_, _, hs'⟩ := fill_next_inv f s s' h
    rw [hs']
    refine ⟨rfl, ?_⟩
    show s.pos - min s.pos MPT_MAX_BUF_LEN < s.pos
    unfold MPT_MAX_BUF_LEN
    omega
  · intro f s t h
    unfold mpt_reader_get_digit at h
    by_cases hb : s.base = 10
    · rw [if_pos hb] at h
      cases hl : mpt_load10 f s with
      | next s1 =>
          rw [hl] at h
          simp at h
      | eod =>
          rw [hl] at h
          obtain ⟨-, hts⟩ := Prod.mk.inj h
          subst hts
          refine ⟨rfl, ?_⟩
          unfold mpt_reader_get_digit
          rw [if_pos hb, hl]
      | abortProcess =>
          rw [hl] at h
          simp at h
    · rw [if_neg hb] at h
      cases hl : mpt_load2 f s with
      | next s1 =>
          rw [hl] at h
          simp at h
      | eod =>
          rw [hl] at h
          obtain ⟨-, hts⟩ := Prod.mk.inj h
          subst hts
          refine ⟨rfl, ?_⟩
          unfold mpt_reader_get_digit
          rw [if_neg hb, hl]
      | abortProcess =>
          rw [hl] at h
          simp at h
  · intro f b p s₀ hwf hopen
    obtain ⟨hb, _, _, _⟩ := open_ok_inv f b p s₀ hopen
    rcases hb with rfl | rfl | rfl
    · obtain ⟨hp, hrep⟩ := open10_rep f p s₀ hwf hopen
      refine ⟨19 * mptM f - p, ?_⟩
      intro i k hNi
      rw [pull10_eq f k s₀ _ hrep, getD_map_range]
      by_cases hik : i < k
      · rw [if_pos hik, if_neg (by omega)]
      · rw [if_neg hik]
    · obtain ⟨hp, hrep⟩ := open2_rep f p s₀ 2 1 hwf (by omega) (by decide)
        (by omega) (by decide) hopen
      refine ⟨64 * mptM f - p * 1, ?_⟩
      intro i k hNi
      rw [pull2_eq f 1 k s₀ _ hrep, getD_map_range]
      by_cases hik : i < k
      · rw [if_pos hik, if_neg (by omega)]
      · rw [if_neg hik]
    · obtain ⟨hp, hrep⟩ := open2_rep f p s₀ 16 4 hwf (by omega) (by decide)
        (by omega) (by decide) hopen
      refine ⟨64 * mptM f - p * 4, ?_⟩
      intro i k hNi
      rw [pull2_eq f 4 k s₀ _ hrep, getD_map_range]
      by_cases hik : i < k
      · rw [if_pos hik, if_neg (by omega)]
      · rw [if_neg hik]

theorem mpt_c10_termination_witness :
    mpt_reader_get_digit file5 rdr10_done = (DigitResult.eod, rdr10_done) ∧
    rdr10_done = rdr10_done ∧
    mpt_reader_get_digit file5 rdr10_done = (DigitResult.eod, rdr10_done) :=
  ⟨by decide, mpt_c10_termination.2.1 file5 rdr10_done rdr10_done (by decide)⟩
